import Mathlib

/-!
A shallow embedding of the hpmr concurrent hash map from
`src/concurrent_map_old.h` and `src/bare_concurrent_map.h` of the `hpu`
repository, together with theorems about the behaviour of its operations.

Modelling conventions:

* OpenMP locking, the snapshot/recheck retry loop in `hash_node_apply`, and
  `omp parallel for` loops are sequentialised; the one lock outcome with
  functional relevance (`omp_test_lock` in `BareConcurrentMap::async_set`) is
  passed in as an explicit oracle argument.
* `size_t` values are modelled as `Nat`; every quantity appearing in the
  development stays far below `2^64`, so no wrap-around is dropped.
* The `double max_load_factor` is modelled as the exact rational
  `max_load_factor_num / max_load_factor_den`.  For the load factors used in
  this development (1.0 and 0.75) every comparison and truncation the source
  performs on doubles is exact, so `n_keys >= n_buckets * max_load_factor`
  is rendered as `n_buckets * num ≤ n_keys * den` and the truncating cast
  `static_cast<size_t>(n_keys / max_load_factor)` as `n_keys * den / num`.
* Bucket chains (`hash_node` lists linked through `next`) are modelled as
  `List (K × V)`.  The `unique_ptr<hash_node>&` slot received by a node
  handler is modelled as the suffix of the chain starting at that node
  (`[]` for the null slot at the tail of the chain); the handler returns the
  replacement suffix plus an auxiliary output (its effect on `n_keys`, a
  value read out, ...).
-/

namespace Hpmr

/-- The prime table of `ConcurrentMap::get_n_rehashing_buckets`. -/
def PRIMES : List Nat :=
  [11, 17, 29, 47, 79, 127, 211, 337, 547, 887, 1433, 2311, 3739, 6053, 9791, 15859]

/-- N_PRIMES = sizeof(PRIMES) / sizeof(size_t). -/
def N_PRIMES : Nat := 16

/-- LAST_PRIME = PRIMES[N_PRIMES - 1]. -/
def LAST_PRIME : Nat := 15859

/-- ConcurrentMap::N_INITIAL_BUCKETS. -/
def N_INITIAL_BUCKETS : Nat := 11

/-- The loop `while (remaining_factor > LAST_PRIME) { remaining_factor /= LAST_PRIME;
n_rehashing_buckets *= LAST_PRIME; }` of `get_n_rehashing_buckets`, with an explicit
fuel bound.  `remaining_factor` is a `size_t`, hence below `2^64`, and it shrinks by
a factor of `LAST_PRIME ≥ 2` on every iteration, so 64 units of fuel are never
exhausted.  Returns the final `(remaining_factor, n_rehashing_buckets)`. -/
def cascade_loop : Nat → Nat → Nat → Nat × Nat
  | 0, remaining_factor, n_rehashing_buckets => (remaining_factor, n_rehashing_buckets)
  | fuel + 1, remaining_factor, n_rehashing_buckets =>
    if LAST_PRIME < remaining_factor then
      cascade_loop fuel (remaining_factor / LAST_PRIME) (n_rehashing_buckets * LAST_PRIME)
    else (remaining_factor, n_rehashing_buckets)

/-- The binary search `while (left < right) ...` of `get_n_rehashing_buckets`, with an
explicit fuel bound.  The span `right - left` starts at `N_PRIMES - 1 = 15` and strictly
shrinks every iteration, so 16 units of fuel are never exhausted. -/
def binary_search_loop : Nat → Nat → Nat → Nat → Nat
  | 0, left, _, _ => left
  | fuel + 1, left, right, remaining_factor =>
    if left < right then
      let mid := (left + right) / 2
      if PRIMES.getD mid 0 < remaining_factor then
        binary_search_loop fuel (mid + 1) right remaining_factor
      else
        binary_search_loop fuel left mid remaining_factor
    else left

/-- ConcurrentMap::get_n_rehashing_buckets. -/
def get_n_rehashing_buckets (n_buckets_min : Nat) : Nat :=
  let r := cascade_loop 64 n_buckets_min 1
  r.2 * PRIMES.getD (binary_search_loop 16 0 (N_PRIMES - 1) r.1) 0

/-- The state of a `ConcurrentMap<K, V, H>`: key count, bucket count, the max load
factor (see the module comment for the exact-rational rendering of the `double`),
the hash functor, the cached `Parallel::get_n_procs()` and the bucket vector.
Locks are elided. -/
structure ConcurrentMapState (K V : Type) where
  n_keys : Nat
  n_buckets : Nat
  max_load_factor_num : Nat
  max_load_factor_den : Nat
  hasher : K → Nat
  n_procs : Nat
  buckets : List (List (K × V))

/-- ConcurrentMap::get_hash_value: `hasher(key) / n_procs_cache`. -/
def get_hash_value {K V : Type} (S : ConcurrentMapState K V) (key : K) : Nat :=
  S.hasher key / S.n_procs

variable {K V : Type} [DecidableEq K]

/-- ConcurrentMap::hash_node_apply_recursive.  The handler receives the chain suffix
whose head is the node with the sought key, or `[]` for the null slot at the tail
when the key is absent, and returns the replacement suffix plus an auxiliary
output of type `A`. -/
def hash_node_apply_recursive {A : Type} (key : K)
    (node_handler : List (K × V) → List (K × V) × A) :
    List (K × V) → List (K × V) × A
  | [] => node_handler []
  | (k, v) :: next =>
    if k = key then node_handler ((k, v) :: next)
    else
      let r := hash_node_apply_recursive key node_handler next
      ((k, v) :: r.1, r.2)

/-- ConcurrentMap::hash_node_all_apply_recursive: post-order traversal, the
successor chain is processed before the node itself. -/
def hash_node_all_apply_recursive {A : Type} (node_handler : A → K × V → A) :
    List (K × V) → A → A
  | [], acc => acc
  | e :: next, acc => node_handler (hash_node_all_apply_recursive node_handler next acc) e

/-- The node handler of `ConcurrentMap::set_with_hash`: a null slot is filled with a
fresh node (and `n_keys` is incremented), otherwise `reducer(node->value, value)`
updates the stored value in place. -/
def set_node_handler (key : K) (value : V) (reducer : V → V → V) :
    List (K × V) → List (K × V) × (Nat → Nat)
  | [] => ([(key, value)], fun n => n + 1)
  | (k, w) :: next => ((k, reducer w value) :: next, fun n => n)

/-- The node handler of the value-returning `ConcurrentMap::get_with_hash`: the
local `value` starts as the default and is overwritten if the node exists. -/
def get_node_handler (default_value : V) :
    List (K × V) → List (K × V) × V
  | [] => ([], default_value)
  | (k, w) :: next => ((k, w) :: next, w)

/-- The node handler of `ConcurrentMap::unset_with_hash`: `node = std::move(node->next)`
and `n_keys` is decremented when the node exists. -/
def unset_node_handler : List (K × V) → List (K × V) × (Nat → Nat)
  | [] => ([], fun n => n)
  | _ :: next => (next, fun n => n - 1)

/-- ConcurrentMap::hash_node_apply.  The snapshot/recheck retry loop only matters under
a concurrent rehash; sequentially the first pass applies.  Returns the state with the
bucket `hash_value % n_buckets` rewritten by the handler, plus the handler's auxiliary
output. -/
def hash_node_apply {A : Type} (S : ConcurrentMapState K V) (key : K) (hash_value : Nat)
    (node_handler : List (K × V) → List (K × V) × A) :
    ConcurrentMapState K V × A :=
  let bucket_id := hash_value % S.n_buckets
  let r := hash_node_apply_recursive key node_handler (S.buckets.getD bucket_id [])
  ({ S with buckets := S.buckets.set bucket_id r.1 }, r.2)

/-- The rehashing node handler inside `ConcurrentMap::rehash(n_rehashing_buckets)`:
`rehashing_node = std::move(node); rehashing_node->next.reset();` — the slot is
overwritten by the single moved node. -/
def rehashing_node_handler (e : K × V) :
    List (K × V) → List (K × V) × Unit :=
  fun _ => ([e], ())

/-- One transplant inside `ConcurrentMap::rehash(n_rehashing_buckets)`: the node `e`
is placed into rehashing bucket `get_hash_value(key) % n_rehashing_buckets` via
`hash_node_apply_recursive` with the rehashing node handler. -/
def rehash_transplant (hash_of : K → Nat) (n_rehashing_buckets : Nat)
    (rehashing_buckets : List (List (K × V))) (e : K × V) : List (List (K × V)) :=
  let bucket_id := hash_of e.1 % n_rehashing_buckets
  rehashing_buckets.set bucket_id
    (hash_node_apply_recursive e.1 (rehashing_node_handler e)
      (rehashing_buckets.getD bucket_id [])).1

/-- ConcurrentMap::rehash(const size_t n_rehashing_buckets).  Sequentially both early
returns collapse to the single `n_buckets >= n_rehashing_buckets` test; otherwise every
old bucket is traversed post-order and its nodes are transplanted into a fresh bucket
vector of the new size. -/
def rehash (S : ConcurrentMapState K V) (n_rehashing_buckets : Nat) :
    ConcurrentMapState K V :=
  if n_rehashing_buckets ≤ S.n_buckets then S
  else
    { S with
      n_buckets := n_rehashing_buckets
      buckets := S.buckets.foldl
        (fun bs bucket =>
          hash_node_all_apply_recursive
            (rehash_transplant (get_hash_value S) n_rehashing_buckets) bucket bs)
        (List.replicate n_rehashing_buckets []) }

/-- ConcurrentMap::reserve. -/
def reserve (S : ConcurrentMapState K V) (n_buckets_min : Nat) : ConcurrentMapState K V :=
  if n_buckets_min ≤ S.n_buckets then S
  else rehash S (get_n_rehashing_buckets n_buckets_min)

/-- ConcurrentMap::rehash(): `n_buckets_min = static_cast<size_t>(n_keys / max_load_factor)`.
With `max_load_factor = num / den` the truncating cast is exactly `n_keys * den / num`. -/
def rehash_auto (S : ConcurrentMapState K V) : ConcurrentMapState K V :=
  reserve S (S.n_keys * S.max_load_factor_den / S.max_load_factor_num)

/-- The `hash_node_apply` part of `ConcurrentMap::set_with_hash` (everything before
the load-factor test). -/
def set_insert_phase (S : ConcurrentMapState K V) (key : K) (hash_value : Nat)
    (value : V) (reducer : V → V → V) : ConcurrentMapState K V :=
  { (hash_node_apply S key hash_value (set_node_handler key value reducer)).1 with
    n_keys := (hash_node_apply S key hash_value (set_node_handler key value reducer)).2
      S.n_keys }

/-- ConcurrentMap::set_with_hash.  The final test `n_keys >= n_buckets * max_load_factor`
is cross-multiplied by `den` (see the module comment). -/
def set_with_hash (S : ConcurrentMapState K V) (key : K) (hash_value : Nat)
    (value : V) (reducer : V → V → V) : ConcurrentMapState K V :=
  if (set_insert_phase S key hash_value value reducer).n_buckets *
        (set_insert_phase S key hash_value value reducer).max_load_factor_num ≤
      (set_insert_phase S key hash_value value reducer).n_keys *
        (set_insert_phase S key hash_value value reducer).max_load_factor_den then
    rehash_auto (set_insert_phase S key hash_value value reducer)
  else set_insert_phase S key hash_value value reducer

/-- The value-returning `ConcurrentMap::get_with_hash`; the pair holds the returned
value and the state after the call. -/
def get_with_hash (S : ConcurrentMapState K V) (key : K) (hash_value : Nat)
    (default_value : V) : V × ConcurrentMapState K V :=
  ((hash_node_apply S key hash_value (get_node_handler default_value)).2,
   (hash_node_apply S key hash_value (get_node_handler default_value)).1)

/-- ConcurrentMap::unset_with_hash. -/
def unset_with_hash (S : ConcurrentMapState K V) (key : K) (hash_value : Nat) :
    ConcurrentMapState K V :=
  { (hash_node_apply S key hash_value unset_node_handler).1 with
    n_keys := (hash_node_apply S key hash_value unset_node_handler).2 S.n_keys }

/-- ConcurrentMap::clear: every bucket head up to `n_buckets` is reset and `n_keys`
is zeroed (the bucket vector keeps length `n_buckets`, a class invariant). -/
def clear (S : ConcurrentMapState K V) : ConcurrentMapState K V :=
  { S with
    n_keys := 0
    buckets := List.replicate S.n_buckets [] }

/-- ConcurrentMap::clear_and_shrink: as `clear`, then `n_buckets = N_INITIAL_BUCKETS`
and the bucket vector is resized to that length. -/
def clear_and_shrink (S : ConcurrentMapState K V) : ConcurrentMapState K V :=
  { S with
    n_keys := 0
    n_buckets := N_INITIAL_BUCKETS
    buckets := List.replicate N_INITIAL_BUCKETS [] }

/-- All (key, value) pairs stored in the map, in bucket order. -/
def entries (S : ConcurrentMapState K V) : List (K × V) :=
  S.buckets.flatten

/-- The inner `while (target_progress <= current_progress)` loop of
`ConcurrentMap::mapreduce`, with an explicit fuel bound.  Thresholds are kept in
tenths of a percent: the source holds `target_progress` in percent starting at 0.1
and doubling, so target state `t` here stands for the printed value `t / 10` percent,
and `target_progress <= i * 100.0 / n_buckets` becomes `t * n_buckets ≤ 1000 * i`
(doubling a double and these magnitude comparisons are exact on the values reached).
The target exceeds any `current_progress < 100` after at most 10 doublings from 0.1,
so 16 units of fuel are never exhausted.  Returns the printed thresholds and the
final target. -/
def progress_tick_loop : Nat → Nat → Nat → Nat → List Nat × Nat
  | 0, target, _, _ => ([], target)
  | fuel + 1, target, i, n_buckets =>
    if target * n_buckets ≤ 1000 * i then
      let r := progress_tick_loop fuel (target * 2) i n_buckets
      (target :: r.1, r.2)
    else ([], target)

/-- The progress-printing behaviour of `ConcurrentMap::mapreduce`: iteration `j`
processes bucket `i = proc_id + j * n_procs`; under `schedule(static, 1)` it runs on
thread `j % n_threads`, and the tick block runs only when `verbose && proc_id == 0 &&
thread_id == 0`.  The shared `target_progress` starts at 0.1 percent (1 tenth).
Returns the printed thresholds in tenths of a percent, in print order. -/
def mapreduce_ticks (n_buckets n_procs n_threads proc_id : Nat) (verbose : Bool) :
    List Nat :=
  (((List.range n_buckets).filter
      (fun j => proc_id + j * n_procs < n_buckets)).foldl
    (fun st j =>
      if verbose ∧ proc_id = 0 ∧ j % n_threads = 0 then
        ((st.1 ++ (progress_tick_loop 16 st.2 (proc_id + j * n_procs) n_buckets).1,
          (progress_tick_loop 16 st.2 (proc_id + j * n_procs) n_buckets).2))
      else st)
    ([], 1)).1

/-- Modelled from the spec: `bare_map.h` is not under `src`; only its callers in
`bare_concurrent_map.h` are.  Per spec §4.2 a bare-map `set` walks the chain for the
key, applies `reducer(existing, incoming)` in place when the key is found and
otherwise appends a fresh node at the tail.  Entries carry the hash value they were
stored under, which `for_each` reports back (see `BareConcurrentMap::sync`).  The
bare map's internal bucket partition never changes which node a given key resolves
to, so the chain is modelled flat. -/
def bare_map_set (key : K) (hash_value : Nat) (value : V) (reducer : V → V → V) :
    List (K × Nat × V) → List (K × Nat × V)
  | [] => [(key, hash_value, value)]
  | (k, h, w) :: next =>
    if k = key then (k, h, reducer w value) :: next
    else (k, h, w) :: bare_map_set key hash_value value reducer next

/-- The state of a `BareConcurrentMap<K, V, H>`: `n_segments` segment bare maps and
one staging-cache bare map per thread (locks elided). -/
structure BareConcurrentMapState (K V : Type) where
  n_segments : Nat
  segments : List (List (K × Nat × V))
  thread_caches : List (List (K × Nat × V))

/-- BareConcurrentMap::async_set.  `lock_acquired` is the outcome of `omp_test_lock`
on the target segment's lock, supplied as an oracle; `thread_id` is the caller's
`omp_get_thread_num()`. -/
def async_set (S : BareConcurrentMapState K V) (thread_id : Nat) (key : K)
    (hash_value : Nat) (value : V) (reducer : V → V → V) (lock_acquired : Bool) :
    BareConcurrentMapState K V :=
  if lock_acquired then
    let new_segment := bare_map_set key (hash_value / S.n_segments) value reducer
      (S.segments.getD (hash_value % S.n_segments) [])
    { S with segments := S.segments.set (hash_value % S.n_segments) new_segment }
  else
    let new_cache := bare_map_set key hash_value value reducer
      (S.thread_caches.getD thread_id [])
    { S with thread_caches := S.thread_caches.set thread_id new_cache }

/-- One staged entry being replayed by the handler inside `BareConcurrentMap::sync`:
the entry goes to segment `hash % n_segments` under hash `hash / n_segments`. -/
def sync_handler_step (n_segments : Nat) (reducer : V → V → V)
    (segments : List (List (K × Nat × V))) (e : K × Nat × V) :
    List (List (K × Nat × V)) :=
  segments.set (e.2.1 % n_segments)
    (bare_map_set e.1 (e.2.1 / n_segments) e.2.2 reducer
      (segments.getD (e.2.1 % n_segments) []))

/-- BareConcurrentMap::sync: every thread drains its staging cache into the segments
(entry order preserved within each cache; the `omp parallel` region is sequentialised
in thread order) and then clears its cache. -/
def sync (S : BareConcurrentMapState K V) (reducer : V → V → V) :
    BareConcurrentMapState K V :=
  { S with
    segments := S.thread_caches.foldl
      (fun segs cache => cache.foldl (sync_handler_step S.n_segments reducer) segs)
      S.segments
    thread_caches := S.thread_caches.map (fun _ => []) }

/-- Lookup of a key on a bare-map chain: the value of the first node whose key
matches. -/
def chain_lookup (key : K) : List (K × Nat × V) → Option V
  | [] => none
  | (k, _, w) :: next => if k = key then some w else chain_lookup key next

/-- The value the segments associate with `key` when probed with full hash
`hash_value` (segment `hash_value % n_segments`). -/
def seg_lookup (S : BareConcurrentMapState K V) (key : K) (hash_value : Nat) :
    Option V :=
  chain_lookup key (S.segments.getD (hash_value % S.n_segments) [])

/-- The value staged for `key` across the thread caches (first occurrence, in thread
order). -/
def staged_lookup (S : BareConcurrentMapState K V) (key : K) : Option V :=
  chain_lookup key S.thread_caches.flatten

/-- Combination of a committed and a staged value under a reducer, as `sync`
produces it. -/
def combine_opt (reducer : V → V → V) : Option V → Option V → Option V
  | some c, some s => some (reducer c s)
  | some c, none => some c
  | none, s => s

/-- Reducer<V>::overwrite for Nat values (the default reducer): the incoming value
replaces the existing one. -/
def overwrite : Nat → Nat → Nat := fun _ incoming => incoming

/-- A freshly constructed `ConcurrentMap<Nat, Nat>` state: identity hash, one
process, default max load factor 1.0. -/
def example_empty_map : ConcurrentMapState Nat Nat :=
  { n_keys := 0
    n_buckets := 11
    max_load_factor_num := 1
    max_load_factor_den := 1
    hasher := fun k => k
    n_procs := 1
    buckets := List.replicate 11 [] }

/-- A 17-bucket map with max load factor 0.75 holding keys 0..11 (reachable by
setting the load factor to 0.75 and inserting keys 0..11 into a fresh map). -/
def example_map_17_12 : ConcurrentMapState Nat Nat :=
  { n_keys := 12
    n_buckets := 17
    max_load_factor_num := 3
    max_load_factor_den := 4
    hasher := fun k => k
    n_procs := 1
    buckets := (List.range 17).map (fun i => if i < 12 then [(i, 0)] else []) }

/-- A map holding the single pair (5, 42) in bucket 5 of 11. -/
def example_map_one : ConcurrentMapState Nat Nat :=
  { n_keys := 1
    n_buckets := 11
    max_load_factor_num := 1
    max_load_factor_den := 1
    hasher := fun k => k
    n_procs := 1
    buckets := (List.range 11).map (fun i => if i = 5 then [(5, 42)] else []) }

/-- A map holding (0, 10) and (1, 20). -/
def example_map_two : ConcurrentMapState Nat Nat :=
  { n_keys := 2
    n_buckets := 11
    max_load_factor_num := 1
    max_load_factor_den := 1
    hasher := fun k => k
    n_procs := 1
    buckets := (List.range 11).map
      (fun i => if i = 0 then [(0, 10)] else if i = 1 then [(1, 20)] else []) }

/-- A segmented map state: 2 segments, key 0 committed with value 5, value 7 staged
for key 0 in the only thread cache. -/
def example_bare_map : BareConcurrentMapState Nat Nat :=
  { n_segments := 2
    segments := [[(0, 0, 5)], []]
    thread_caches := [[(0, 0, 7)]] }

theorem getD_set_self {α : Type} (a d : α) :
    ∀ (l : List α) (i : Nat), i < l.length → (l.set i a).getD i d = a := by
  intro l
  induction l with
  | nil => intro i hi; simp at hi
  | cons x t ih =>
    intro i hi
    cases i with
    | zero => rfl
    | succ j =>
      simp only [List.set, List.getD, List.getElem?_cons_succ]
      exact ih j (by simpa using hi)

theorem getD_set_ne {α : Type} (a d : α) :
    ∀ (l : List α) (i j : Nat), i ≠ j → (l.set i a).getD j d = l.getD j d := by
  intro l
  induction l with
  | nil => intro i j _; simp [List.set]
  | cons x t ih =>
    intro i j hij
    cases i with
    | zero =>
      cases j with
      | zero => exact absurd rfl hij
      | succ m => rfl
    | succ n =>
      cases j with
      | zero => rfl
      | succ m =>
        simp only [List.set, List.getD, List.getElem?_cons_succ]
        exact ih n m (by omega)

theorem set_getD_self {α : Type} (d : α) :
    ∀ (l : List α) (i : Nat), l.set i (l.getD i d) = l := by
  intro l
  induction l with
  | nil => intro i; rfl
  | cons x t ih =>
    intro i
    cases i with
    | zero => rfl
    | succ j =>
      simp only [List.set, List.getD, List.getElem?_cons_succ]
      exact congrArg (x :: ·) (ih j)

theorem getD_replicate_self {α : Type} (a : α) :
    ∀ (n i : Nat), (List.replicate n a).getD i a = a := by
  intro n
  induction n with
  | zero => intro i; rfl
  | succ m ih =>
    intro i
    cases i with
    | zero => rfl
    | succ j =>
      simp only [List.replicate, List.getD, List.getElem?_cons_succ]
      exact ih j

theorem getD_sublist_flatten {α : Type} :
    ∀ (ls : List (List α)) (i : Nat), (ls.getD i []).Sublist ls.flatten := by
  intro ls
  induction ls with
  | nil => intro i; simp
  | cons b t ih =>
    intro i
    cases i with
    | zero =>
      simpa using List.sublist_append_left b t.flatten
    | succ j =>
      simp only [List.getD, List.getElem?_cons_succ, List.flatten_cons]
      exact (ih j).trans (List.sublist_append_right b t.flatten)

theorem hash_node_apply_recursive_not_mem {A : Type} (key : K)
    (node_handler : List (K × V) → List (K × V) × A) :
    ∀ (b : List (K × V)), key ∉ b.map Prod.fst →
      hash_node_apply_recursive key node_handler b =
        (b ++ (node_handler []).1, (node_handler []).2) := by
  intro b
  induction b with
  | nil => intro _; simp [hash_node_apply_recursive]
  | cons e t ih =>
    intro hmem
    obtain ⟨k, v⟩ := e
    have hk : k ≠ key := by
      intro h
      exact hmem (by simp [h])
    have ht : key ∉ t.map Prod.fst := fun h => hmem (by simp [h])
    simp [hash_node_apply_recursive, hk, ih ht]

theorem hash_node_apply_recursive_mem {A : Type} (key : K) (w : V)
    (node_handler : List (K × V) → List (K × V) × A) :
    ∀ (b1 b2 : List (K × V)), key ∉ b1.map Prod.fst →
      hash_node_apply_recursive key node_handler (b1 ++ (key, w) :: b2) =
        (b1 ++ (node_handler ((key, w) :: b2)).1, (node_handler ((key, w) :: b2)).2) := by
  intro b1
  induction b1 with
  | nil =>
    intro b2 _
    simp [hash_node_apply_recursive]
  | cons e t ih =>
    intro b2 hmem
    obtain ⟨k, v⟩ := e
    have hk : k ≠ key := by
      intro h
      exact hmem (by simp [h])
    have ht : key ∉ t.map Prod.fst := fun h => hmem (by simp [h])
    simp [hash_node_apply_recursive, hk, ih b2 ht]

theorem mem_nodup_split (key : K) (v : V) :
    ∀ (b : List (K × V)), (key, v) ∈ b → (b.map Prod.fst).Nodup →
      ∃ b1 b2, b = b1 ++ (key, v) :: b2 ∧ key ∉ b1.map Prod.fst := by
  intro b
  induction b with
  | nil => intro h; simp at h
  | cons e t ih =>
    intro hmem hnd
    rcases List.mem_cons.mp hmem with heq | htail
    · exact ⟨[], t, by simp [heq.symm], by simp⟩
    · have hnd_t : (t.map Prod.fst).Nodup := (List.nodup_cons.mp hnd).2
      have hne : e.1 ≠ key := by
        intro h
        have : e.1 ∈ t.map Prod.fst := by
          rw [h]
          exact List.mem_map.mpr ⟨(key, v), htail, rfl⟩
        exact (List.nodup_cons.mp hnd).1 this
      obtain ⟨b1, b2, hb, hb1⟩ := ih htail hnd_t
      refine ⟨e :: b1, b2, by simp [hb], ?_⟩
      intro h
      rcases List.mem_map.mp h with ⟨x, hx, hfst⟩
      rcases List.mem_cons.mp hx with rfl | hx'
      · exact hne hfst
      · exact hb1 (List.mem_map.mpr ⟨x, hx', hfst⟩)

theorem rehash_n_keys (S : ConcurrentMapState K V) (r : Nat) :
    (rehash S r).n_keys = S.n_keys := by
  by_cases hc : r ≤ S.n_buckets <;> simp [rehash, hc]

theorem rehash_num (S : ConcurrentMapState K V) (r : Nat) :
    (rehash S r).max_load_factor_num = S.max_load_factor_num := by
  by_cases hc : r ≤ S.n_buckets <;> simp [rehash, hc]

theorem rehash_den (S : ConcurrentMapState K V) (r : Nat) :
    (rehash S r).max_load_factor_den = S.max_load_factor_den := by
  by_cases hc : r ≤ S.n_buckets <;> simp [rehash, hc]

theorem rehash_n_buckets (S : ConcurrentMapState K V) (r : Nat) :
    (rehash S r).n_buckets = if r ≤ S.n_buckets then S.n_buckets else r := by
  by_cases hc : r ≤ S.n_buckets <;> simp [rehash, hc]

theorem reserve_n_keys (S : ConcurrentMapState K V) (m : Nat) :
    (reserve S m).n_keys = S.n_keys := by
  by_cases hc : m ≤ S.n_buckets <;> simp [reserve, hc, rehash_n_keys]

theorem reserve_num (S : ConcurrentMapState K V) (m : Nat) :
    (reserve S m).max_load_factor_num = S.max_load_factor_num := by
  by_cases hc : m ≤ S.n_buckets <;> simp [reserve, hc, rehash_num]

theorem reserve_den (S : ConcurrentMapState K V) (m : Nat) :
    (reserve S m).max_load_factor_den = S.max_load_factor_den := by
  by_cases hc : m ≤ S.n_buckets <;> simp [reserve, hc, rehash_den]

theorem rehash_auto_n_keys (S : ConcurrentMapState K V) :
    (rehash_auto S).n_keys = S.n_keys := by
  unfold rehash_auto
  exact reserve_n_keys S _

theorem rehash_auto_num (S : ConcurrentMapState K V) :
    (rehash_auto S).max_load_factor_num = S.max_load_factor_num := by
  unfold rehash_auto
  exact reserve_num S _

theorem rehash_auto_den (S : ConcurrentMapState K V) :
    (rehash_auto S).max_load_factor_den = S.max_load_factor_den := by
  unfold rehash_auto
  exact reserve_den S _

theorem set_with_hash_n_keys (S : ConcurrentMapState K V) (key : K) (hash_value : Nat)
    (value : V) (reducer : V → V → V) :
    (set_with_hash S key hash_value value reducer).n_keys =
      (set_insert_phase S key hash_value value reducer).n_keys := by
  unfold set_with_hash
  split
  · exact rehash_auto_n_keys _
  · rfl

theorem cascade_loop_stop (fuel remaining_factor acc : Nat)
    (h : remaining_factor ≤ LAST_PRIME) :
    cascade_loop (fuel + 1) remaining_factor acc = (remaining_factor, acc) := by
  simp [cascade_loop, Nat.not_lt.mpr h]

theorem cascade_loop_64_small (n : Nat) (h : n ≤ 15859) :
    cascade_loop 64 n 1 = (n, 1) := by
  rw [show (64 : Nat) = 63 + 1 from rfl]
  exact cascade_loop_stop 63 n 1 h

theorem cascade_loop_64_one (n : Nat) (h1 : 15859 < n) (h2 : n ≤ 174449) :
    cascade_loop 64 n 1 = (n / 15859, 15859) := by
  have step : cascade_loop 64 n 1 = cascade_loop 63 (n / LAST_PRIME) (1 * LAST_PRIME) := by
    rw [show (64 : Nat) = 63 + 1 from rfl]
    rw [show cascade_loop (63 + 1) n 1 =
        (if LAST_PRIME < n then cascade_loop 63 (n / LAST_PRIME) (1 * LAST_PRIME)
         else (n, 1)) from rfl]
    rw [if_pos (show LAST_PRIME < n from h1)]
  rw [step]
  have hdiv : n / LAST_PRIME ≤ LAST_PRIME := by
    have hd : n / 15859 ≤ 174449 / 15859 := Nat.div_le_div_right h2
    have h11 : (174449 : Nat) / 15859 = 11 := by decide
    show n / 15859 ≤ 15859
    omega
  rw [show (63 : Nat) = 62 + 1 from rfl]
  rw [cascade_loop_stop 62 _ _ hdiv]
  show ((n / 15859 : Nat), 1 * 15859) = (n / 15859, 15859)
  norm_num

theorem binary_search_loop_spec :
    ∀ (fuel left right remaining_factor : Nat),
      left ≤ right → right - left < fuel → right ≤ 15 →
      remaining_factor ≤ PRIMES.getD right 0 →
      binary_search_loop fuel left right remaining_factor ≤ 15 ∧
        remaining_factor ≤
          PRIMES.getD (binary_search_loop fuel left right remaining_factor) 0 := by
  intro fuel
  induction fuel with
  | zero => intro left right rem _ hf _ _; omega
  | succ f ih =>
    intro left right rem hlr hf hr15 hrem
    rw [show binary_search_loop (f + 1) left right rem =
        (if left < right then
          (if PRIMES.getD ((left + right) / 2) 0 < rem then
            binary_search_loop f ((left + right) / 2 + 1) right rem
          else binary_search_loop f left ((left + right) / 2) rem)
        else left) from rfl]
    by_cases hlt : left < right
    · rw [if_pos hlt]
      have hmid_lo : left ≤ (left + right) / 2 := by omega
      have hmid_hi : (left + right) / 2 < right := by omega
      by_cases hc : PRIMES.getD ((left + right) / 2) 0 < rem
      · rw [if_pos hc]
        exact ih ((left + right) / 2 + 1) right rem (by omega) (by omega) hr15 hrem
      · rw [if_neg hc]
        exact ih left ((left + right) / 2) rem (by omega) (by omega) (by omega)
          (Nat.le_of_not_lt hc)
    · rw [if_neg hlt]
      have heq : right = left := by omega
      subst heq
      exact ⟨hr15, hrem⟩

theorem primes_getD_ge_eleven (i : Nat) (hi : i ≤ 15) : 11 ≤ PRIMES.getD i 0 := by
  have hlen : i < PRIMES.length := by
    simp only [PRIMES, List.length_cons, List.length_nil]
    omega
  rw [List.getD_eq_getElem PRIMES 0 hlen]
  have hall : ∀ x ∈ PRIMES, 11 ≤ x := by decide
  exact hall _ (List.getElem_mem hlen)

theorem get_n_rehashing_buckets_ge (n : Nat) (h : n ≤ 174449) :
    n ≤ get_n_rehashing_buckets n := by
  by_cases hs : n ≤ 15859
  · unfold get_n_rehashing_buckets
    rw [cascade_loop_64_small n hs]
    have hrem : n ≤ PRIMES.getD 15 0 := by
      rw [show PRIMES.getD 15 0 = 15859 from rfl]
      exact hs
    have hspec := binary_search_loop_spec 16 0 15 n (by omega) (by omega) (by omega) hrem
    show n ≤ 1 * PRIMES.getD (binary_search_loop 16 0 (N_PRIMES - 1) n) 0
    rw [show N_PRIMES - 1 = 15 from rfl, Nat.one_mul]
    exact hspec.2
  · unfold get_n_rehashing_buckets
    rw [cascade_loop_64_one n (by omega) h]
    have hrem : n / 15859 ≤ PRIMES.getD 15 0 := by
      rw [show PRIMES.getD 15 0 = 15859 from rfl]
      have hd : n / 15859 ≤ 174449 / 15859 := Nat.div_le_div_right h
      have h11 : (174449 : Nat) / 15859 = 11 := by decide
      omega
    have hspec := binary_search_loop_spec 16 0 15 (n / 15859) (by omega) (by omega)
      (by omega) hrem
    have hge := primes_getD_ge_eleven _ hspec.1
    show n ≤ 15859 * PRIMES.getD (binary_search_loop 16 0 (N_PRIMES - 1) (n / 15859)) 0
    rw [show N_PRIMES - 1 = 15 from rfl]
    calc n ≤ 174449 := h
      _ = 15859 * 11 := by decide
      _ ≤ 15859 * PRIMES.getD (binary_search_loop 16 0 15 (n / 15859)) 0 :=
        Nat.mul_le_mul_left 15859 hge

/-- C1: the bucket-count picker is claimed (by the spec and by its own source
comment) to return a number at least the requested minimum; at
`n_buckets_min = 174450` it actually returns `11 * 15859 = 174449 < 174450`. -/
theorem C1_get_n_rehashing_buckets_below_request :
    get_n_rehashing_buckets 174450 = 174449 ∧ 174449 < 174450 := by
  exact ⟨by decide, by decide⟩

/-- C2 (amended): after `set_with_hash` the code invokes `rehash()` exactly when the
post-insert key count satisfies `n_keys >= n_buckets * max_load_factor` (greater or
equal, not strictly greater, cross-multiplied by `den` here), and the invocation
need not change the bucket count, so the invariant
`n_keys ≤ n_buckets * max_load_factor` can fail after `set` completes (see the
counterexample); the invariant does hold after every `set` when
`max_load_factor = 1` (the default) and the post-insert key count is at most
174449, the largest request the prime cascade still covers. -/
theorem C2_set_load_factor_amended (S : ConcurrentMapState K V) (key : K)
    (hash_value : Nat) (value : V) (reducer : V → V → V) :
    (¬ ((set_insert_phase S key hash_value value reducer).n_buckets *
          (set_insert_phase S key hash_value value reducer).max_load_factor_num ≤
        (set_insert_phase S key hash_value value reducer).n_keys *
          (set_insert_phase S key hash_value value reducer).max_load_factor_den) →
      set_with_hash S key hash_value value reducer =
        set_insert_phase S key hash_value value reducer) ∧
    (((set_insert_phase S key hash_value value reducer).n_buckets *
          (set_insert_phase S key hash_value value reducer).max_load_factor_num ≤
        (set_insert_phase S key hash_value value reducer).n_keys *
          (set_insert_phase S key hash_value value reducer).max_load_factor_den) →
      set_with_hash S key hash_value value reducer =
        rehash_auto (set_insert_phase S key hash_value value reducer)) ∧
    (S.max_load_factor_num = 1 → S.max_load_factor_den = 1 →
      (set_with_hash S key hash_value value reducer).n_keys ≤ 174449 →
      (set_with_hash S key hash_value value reducer).n_keys *
          (set_with_hash S key hash_value value reducer).max_load_factor_den ≤
        (set_with_hash S key hash_value value reducer).n_buckets *
          (set_with_hash S key hash_value value reducer).max_load_factor_num) := by
  refine ⟨fun hc => ?_, fun hc => ?_, fun hnum hden hle => ?_⟩
  · unfold set_with_hash
    rw [if_neg hc]
  · unfold set_with_hash
    rw [if_pos hc]
  · have e1 : (set_insert_phase S key hash_value value reducer).max_load_factor_num = 1 :=
      hnum
    have e2 : (set_insert_phase S key hash_value value reducer).max_load_factor_den = 1 :=
      hden
    by_cases hc : (set_insert_phase S key hash_value value reducer).n_buckets *
          (set_insert_phase S key hash_value value reducer).max_load_factor_num ≤
        (set_insert_phase S key hash_value value reducer).n_keys *
          (set_insert_phase S key hash_value value reducer).max_load_factor_den
    · have hT : set_with_hash S key hash_value value reducer =
          rehash_auto (set_insert_phase S key hash_value value reducer) := by
        unfold set_with_hash
        rw [if_pos hc]
      rw [hT] at hle ⊢
      rw [rehash_auto_n_keys] at hle
      rw [e1, e2] at hc
      unfold rehash_auto
      rw [reserve_n_keys, reserve_num, reserve_den, e1, e2]
      rw [Nat.mul_one, Nat.div_one]
      by_cases hres : (set_insert_phase S key hash_value value reducer).n_keys ≤
          (set_insert_phase S key hash_value value reducer).n_buckets
      · unfold reserve
        rw [if_pos hres]
        omega
      · have hg : (set_insert_phase S key hash_value value reducer).n_keys ≤
            get_n_rehashing_buckets (set_insert_phase S key hash_value value reducer).n_keys :=
          get_n_rehashing_buckets_ge _ hle
        unfold reserve
        rw [if_neg hres, rehash_n_buckets]
        by_cases hreh : get_n_rehashing_buckets
              (set_insert_phase S key hash_value value reducer).n_keys ≤
            (set_insert_phase S key hash_value value reducer).n_buckets
        · rw [if_pos hreh]
          omega
        · rw [if_neg hreh]
          omega
    · have hT : set_with_hash S key hash_value value reducer =
          set_insert_phase S key hash_value value reducer := by
        unfold set_with_hash
        rw [if_neg hc]
      rw [hT]
      rw [e1, e2] at hc ⊢
      omega

/-- C2 (counterexample): inserting key 12 into `example_map_17_12` (17 buckets, max
load factor 0.75, holding keys 0..11) completes with 13 keys in 17 buckets even
though 13 > 17 * 0.75 = 12.75: the claimed invariant fails after `set` completes,
and the bucket count did not change even though the post-insert count exceeds
`n_buckets * max_load_factor`. -/
theorem C2_set_load_factor_counterexample :
    (set_with_hash example_map_17_12 12 12 0 overwrite).n_buckets *
        (set_with_hash example_map_17_12 12 12 0 overwrite).max_load_factor_num <
      (set_with_hash example_map_17_12 12 12 0 overwrite).n_keys *
        (set_with_hash example_map_17_12 12 12 0 overwrite).max_load_factor_den ∧
    (set_with_hash example_map_17_12 12 12 0 overwrite).n_buckets =
      example_map_17_12.n_buckets := by
  exact ⟨by decide, by decide⟩

theorem C2_set_load_factor_amended_witness :
    (set_with_hash example_empty_map 3 3 99 overwrite).n_keys *
        (set_with_hash example_empty_map 3 3 99 overwrite).max_load_factor_den ≤
      (set_with_hash example_empty_map 3 3 99 overwrite).n_buckets *
        (set_with_hash example_empty_map 3 3 99 overwrite).max_load_factor_num ∧
    set_with_hash example_empty_map 3 3 99 overwrite =
      set_insert_phase example_empty_map 3 3 99 overwrite :=
  ⟨(C2_set_load_factor_amended example_empty_map 3 3 99 overwrite).2.2 rfl rfl (by decide),
   (C2_set_load_factor_amended example_empty_map 3 3 99 overwrite).1 (by decide)⟩

/-- C3: `set` with an already-present key applies the reducer in place with the
existing value as first argument and the incoming value as second, leaving `n_keys`
unchanged; with an absent key it appends the new node at the tail of the bucket
chain and increments `n_keys` by exactly one.  The chain shape is stated on the
bucket produced by the node-handler application (a rehash possibly following the
insert redistributes chains but never changes `n_keys`). -/
theorem C3_set_with_hash_semantics (S : ConcurrentMapState K V) (key : K)
    (hash_value : Nat) (value : V) (reducer : V → V → V) :
    (∀ b1 w b2,
      S.buckets.getD (hash_value % S.n_buckets) [] = b1 ++ (key, w) :: b2 →
      key ∉ b1.map Prod.fst →
      (hash_node_apply_recursive key (set_node_handler key value reducer)
          (S.buckets.getD (hash_value % S.n_buckets) [])).1 =
        b1 ++ (key, reducer w value) :: b2 ∧
      (set_with_hash S key hash_value value reducer).n_keys = S.n_keys) ∧
    (key ∉ (S.buckets.getD (hash_value % S.n_buckets) []).map Prod.fst →
      (hash_node_apply_recursive key (set_node_handler key value reducer)
          (S.buckets.getD (hash_value % S.n_buckets) [])).1 =
        S.buckets.getD (hash_value % S.n_buckets) [] ++ [(key, value)] ∧
      (set_with_hash S key hash_value value reducer).n_keys = S.n_keys + 1) := by
  constructor
  · intro b1 w b2 hb hb1
    have happ := hash_node_apply_recursive_mem key w
      (set_node_handler key value reducer) b1 b2 hb1
    constructor
    · rw [hb, happ]
      rfl
    · rw [set_with_hash_n_keys]
      show (hash_node_apply_recursive key (set_node_handler key value reducer)
          (S.buckets.getD (hash_value % S.n_buckets) [])).2 S.n_keys = S.n_keys
      rw [hb, happ]
      rfl
  · intro hmem
    have happ := hash_node_apply_recursive_not_mem key
      (set_node_handler key value reducer) _ hmem
    constructor
    · rw [happ]
      rfl
    · rw [set_with_hash_n_keys]
      show (hash_node_apply_recursive key (set_node_handler key value reducer)
          (S.buckets.getD (hash_value % S.n_buckets) [])).2 S.n_keys = S.n_keys + 1
      rw [happ]
      rfl

theorem hash_node_all_apply_recursive_eq_foldl {A : Type}
    (node_handler : A → K × V → A) :
    ∀ (b : List (K × V)) (acc : A),
      hash_node_all_apply_recursive node_handler b acc =
        b.reverse.foldl node_handler acc := by
  intro b
  induction b with
  | nil => intro acc; rfl
  | cons e t ih =>
    intro acc
    simp [hash_node_all_apply_recursive, ih, List.foldl_append]

theorem flatten_set_append {α : Type} (e : α) :
    ∀ (bs : List (List α)) (i : Nat), i < bs.length →
      ((bs.set i (bs.getD i [] ++ [e])).flatten).Perm (bs.flatten ++ [e]) := by
  intro bs
  induction bs with
  | nil => intro i hi; simp at hi
  | cons b t ih =>
    intro i hi
    cases i with
    | zero =>
      show ((b ++ [e]) :: t).flatten.Perm ((b :: t).flatten ++ [e])
      simp only [List.flatten_cons]
      rw [List.append_assoc, List.append_assoc]
      exact List.Perm.append_left b List.perm_append_comm
    | succ j =>
      show (b :: t.set j (t.getD j [] ++ [e])).flatten.Perm ((b :: t).flatten ++ [e])
      simp only [List.flatten_cons]
      rw [List.append_assoc]
      exact List.Perm.append_left b (ih j (by simpa using hi))

theorem flatten_replicate_nil {α : Type} :
    ∀ n : Nat, (List.replicate n ([] : List α)).flatten = [] := by
  intro n
  induction n with
  | zero => rfl
  | succ m ih => simpa [List.replicate_succ] using ih

theorem flatten_map_reverse_perm {α : Type} :
    ∀ ls : List (List α), ((ls.map List.reverse).flatten).Perm ls.flatten := by
  intro ls
  induction ls with
  | nil => exact List.Perm.refl _
  | cons b t ih =>
    simp only [List.map_cons, List.flatten_cons]
    exact List.Perm.append (List.reverse_perm b) ih

theorem rehash_transplant_fold_perm (hash_of : K → Nat) (r : Nat) (hr : 0 < r) :
    ∀ (es : List (K × V)) (bs : List (List (K × V))),
      bs.length = r →
      ((bs.flatten ++ es).map Prod.fst).Nodup →
      ((es.foldl (rehash_transplant hash_of r) bs).flatten).Perm
        (bs.flatten ++ es) := by
  intro es
  induction es with
  | nil =>
    intro bs _ _
    simp
  | cons e t ih =>
    intro bs hlen hnd
    have hkey : e.1 ∉ (bs.flatten).map Prod.fst := by
      have hnd2 : ((bs.flatten).map Prod.fst ++ e.1 :: t.map Prod.fst).Nodup := by
        simpa using hnd
      have hdisj := List.disjoint_of_nodup_append hnd2
      exact fun h => hdisj h (by simp)
    have hi : hash_of e.1 % r < bs.length := by
      rw [hlen]
      exact Nat.mod_lt _ hr
    have hbucket : e.1 ∉ (bs.getD (hash_of e.1 % r) []).map Prod.fst := by
      intro h
      exact hkey (((getD_sublist_flatten bs (hash_of e.1 % r)).map Prod.fst).subset h)
    have hstep : rehash_transplant hash_of r bs e =
        bs.set (hash_of e.1 % r) (bs.getD (hash_of e.1 % r) [] ++ [e]) := by
      show bs.set (hash_of e.1 % r)
          (hash_node_apply_recursive e.1 (rehashing_node_handler e)
            (bs.getD (hash_of e.1 % r) [])).1 =
        bs.set (hash_of e.1 % r) (bs.getD (hash_of e.1 % r) [] ++ [e])
      rw [hash_node_apply_recursive_not_mem e.1 (rehashing_node_handler e) _ hbucket]
      rfl
    have hperm1 := flatten_set_append e bs (hash_of e.1 % r) hi
    have hfinal : ((bs.set (hash_of e.1 % r)
        (bs.getD (hash_of e.1 % r) [] ++ [e])).flatten ++ t).Perm
        (bs.flatten ++ e :: t) := by
      have h1 := hperm1.append_right t
      rw [List.append_assoc] at h1
      simpa using h1
    have hnd3 : (((bs.set (hash_of e.1 % r)
        (bs.getD (hash_of e.1 % r) [] ++ [e])).flatten ++ t).map Prod.fst).Nodup :=
      ((hfinal.map Prod.fst).nodup_iff).mpr hnd
    have hlen2 : (bs.set (hash_of e.1 % r)
        (bs.getD (hash_of e.1 % r) [] ++ [e])).length = r := by
      rw [List.length_set, hlen]
    have ih2 := ih (bs.set (hash_of e.1 % r)
      (bs.getD (hash_of e.1 % r) [] ++ [e])) hlen2 hnd3
    show ((t.foldl (rehash_transplant hash_of r)
        (rehash_transplant hash_of r bs e)).flatten).Perm (bs.flatten ++ e :: t)
    rw [hstep]
    exact ih2.trans hfinal

/-- C6: a rehash to a new bucket count preserves the stored multiset of (key, value)
pairs — hence the key set and every key's value — for any map whose stored keys are
pairwise distinct. -/
theorem C6_rehash_preserves_entries (S : ConcurrentMapState K V)
    (n_rehashing_buckets : Nat) (hr : 0 < n_rehashing_buckets)
    (hnd : ((entries S).map Prod.fst).Nodup) :
    (entries (rehash S n_rehashing_buckets)).Perm (entries S) := by
  by_cases hc : n_rehashing_buckets ≤ S.n_buckets
  · rw [show rehash S n_rehashing_buckets = S from by unfold rehash; rw [if_pos hc]]
  · have hbody : entries (rehash S n_rehashing_buckets) =
        (S.buckets.foldl (fun bs bucket => hash_node_all_apply_recursive
          (rehash_transplant (get_hash_value S) n_rehashing_buckets) bucket bs)
          (List.replicate n_rehashing_buckets [])).flatten := by
      unfold entries rehash
      rw [if_neg hc]
    rw [hbody]
    have hfold : S.buckets.foldl (fun bs bucket => hash_node_all_apply_recursive
          (rehash_transplant (get_hash_value S) n_rehashing_buckets) bucket bs)
          (List.replicate n_rehashing_buckets []) =
        ((S.buckets.map List.reverse).flatten).foldl
          (rehash_transplant (get_hash_value S) n_rehashing_buckets)
          (List.replicate n_rehashing_buckets []) := by
      rw [List.foldl_flatten, List.foldl_map]
      simp only [hash_node_all_apply_recursive_eq_foldl]
    rw [hfold]
    have hbase : (List.replicate n_rehashing_buckets ([] : List (K × V))).flatten =
        [] := flatten_replicate_nil _
    have hrev : (((S.buckets.map List.reverse).flatten)).Perm S.buckets.flatten :=
      flatten_map_reverse_perm _
    have hnd2 : (((List.replicate n_rehashing_buckets ([] : List (K × V))).flatten ++
        (S.buckets.map List.reverse).flatten).map Prod.fst).Nodup := by
      rw [hbase, List.nil_append]
      exact ((hrev.map Prod.fst).nodup_iff).mpr hnd
    have hmain := rehash_transplant_fold_perm (get_hash_value S) n_rehashing_buckets
      hr ((S.buckets.map List.reverse).flatten)
      (List.replicate n_rehashing_buckets []) (List.length_replicate _ _) hnd2
    refine hmain.trans ?_
    rw [hbase, List.nil_append]
    exact hrev

theorem C6_rehash_preserves_entries_witness :
    (entries (rehash example_map_two 17)).Perm (entries example_map_two) :=
  C6_rehash_preserves_entries example_map_two 17 (by decide) (by decide)

theorem progress_tick_loop_spec :
    ∀ (fuel target i n_buckets : Nat),
      (∀ x ∈ (progress_tick_loop fuel target i n_buckets).1,
        ∃ m, x = target * 2 ^ m ∧ x * n_buckets ≤ 1000 * i) ∧
      ∃ m, (progress_tick_loop fuel target i n_buckets).2 = target * 2 ^ m := by
  intro fuel
  induction fuel with
  | zero =>
    intro target i B
    refine ⟨?_, 0, by norm_num [progress_tick_loop]⟩
    intro x hx
    simp [progress_tick_loop] at hx
  | succ f ih =>
    intro target i B
    rw [show progress_tick_loop (f + 1) target i B =
        (if target * B ≤ 1000 * i then
          (target :: (progress_tick_loop f (target * 2) i B).1,
            (progress_tick_loop f (target * 2) i B).2)
        else ([], target)) from rfl]
    by_cases hc : target * B ≤ 1000 * i
    · rw [if_pos hc]
      refine ⟨?_, ?_⟩
      · intro x hx
        rcases List.mem_cons.mp hx with rfl | hx2
        · exact ⟨0, by norm_num, hc⟩
        · obtain ⟨m, hm, hle⟩ := (ih (target * 2) i B).1 x hx2
          exact ⟨m + 1, by rw [hm]; ring, hle⟩
      · obtain ⟨m, hm⟩ := (ih (target * 2) i B).2
        exact ⟨m + 1, by rw [hm]; ring⟩
    · rw [if_neg hc]
      refine ⟨?_, 0, by norm_num⟩
      intro x hx
      simp at hx

theorem tick_fold_const (n_buckets n_procs n_threads proc_id : Nat) (verbose : Bool)
    (h : ¬ (verbose = true ∧ proc_id = 0)) :
    ∀ (js : List Nat) (st : List Nat × Nat),
      js.foldl
        (fun st j =>
          if verbose ∧ proc_id = 0 ∧ j % n_threads = 0 then
            ((st.1 ++ (progress_tick_loop 16 st.2 (proc_id + j * n_procs) n_buckets).1,
              (progress_tick_loop 16 st.2 (proc_id + j * n_procs) n_buckets).2))
          else st)
        st = st := by
  intro js
  induction js with
  | nil => intro st; rfl
  | cons j t ih =>
    intro st
    have hcond : ¬ (verbose = true ∧ proc_id = 0 ∧ j % n_threads = 0) := by
      intro hx
      exact h ⟨hx.1, hx.2.1⟩
    rw [List.foldl_cons, if_neg hcond]
    exact ih st

theorem tick_fold_pow (n_buckets n_procs n_threads proc_id : Nat) (verbose : Bool) :
    ∀ (js : List Nat) (acc : List Nat) (target : Nat),
      (∀ j ∈ js, proc_id + j * n_procs < n_buckets) →
      (∀ x ∈ acc, ∃ m, m ≤ 9 ∧ x = 2 ^ m) →
      (∃ m0, target = 2 ^ m0) →
      ∀ x ∈ (js.foldl
          (fun st j =>
            if verbose ∧ proc_id = 0 ∧ j % n_threads = 0 then
              ((st.1 ++ (progress_tick_loop 16 st.2 (proc_id + j * n_procs) n_buckets).1,
                (progress_tick_loop 16 st.2 (proc_id + j * n_procs) n_buckets).2))
            else st)
          (acc, target)).1,
        ∃ m, m ≤ 9 ∧ x = 2 ^ m := by
  intro js
  induction js with
  | nil =>
    intro acc target _ hacc _ x hx
    exact hacc x hx
  | cons j t ih =>
    intro acc target hjs hacc htgt x
    rw [List.foldl_cons]
    by_cases hcond : verbose = true ∧ proc_id = 0 ∧ j % n_threads = 0
    · rw [if_pos hcond]
      intro hx
      refine ih _ _ (fun j2 hj2 => hjs j2 (List.mem_cons_of_mem _ hj2)) ?_ ?_ x hx
      · intro y hy
        rcases List.mem_append.mp hy with hy1 | hy2
        · exact hacc y hy1
        · obtain ⟨m0, hm0⟩ := htgt
          obtain ⟨m, hm, hle⟩ := (progress_tick_loop_spec 16 target
            (proc_id + j * n_procs) n_buckets).1 y hy2
          have hiB : proc_id + j * n_procs < n_buckets :=
            hjs j (List.mem_cons_self _ _)
          have hylt : y < 1000 := by
            by_contra hge
            push_neg at hge
            have h1 : 1000 * n_buckets ≤ y * n_buckets :=
              Nat.mul_le_mul_right _ hge
            have h2 : 1000 * (proc_id + j * n_procs) < 1000 * n_buckets :=
              (Nat.mul_lt_mul_left (by omega)).mpr hiB
            exact absurd ((h1.trans hle).trans_lt h2) (lt_irrefl _)
          have hy2pow : y = 2 ^ (m0 + m) := by rw [hm, hm0, pow_add]
          rw [hy2pow] at hylt
          have h1024 : (1024 : Nat) = 2 ^ 10 := by norm_num
          have hm9 : m0 + m ≤ 9 := by
            by_contra hgt
            push_neg at hgt
            have hpow : (1024 : Nat) ≤ 2 ^ (m0 + m) := by
              rw [h1024]
              exact Nat.pow_le_pow_right (by norm_num) (by omega)
            omega
          exact ⟨m0 + m, hm9, hy2pow⟩
      · obtain ⟨m0, hm0⟩ := htgt
        obtain ⟨m, hm⟩ := (progress_tick_loop_spec 16 target
          (proc_id + j * n_procs) n_buckets).2
        exact ⟨m0 + m, by rw [hm, hm0, pow_add]⟩
    · rw [if_neg hcond]
      intro hx
      exact ih _ _ (fun j2 hj2 => hjs j2 (List.mem_cons_of_mem _ hj2)) hacc htgt x hx

/-- C7 (amended): in a verbose mapreduce, progress prints only on rank 0 thread 0,
and every printed threshold is `0.1 * 2^j` percent for some `j ≤ 9` (0.1, 0.2, 0.4,
..., up to at most 51.2): the doubling sequence starts at 0.1 percent, not at 10
percent, and since the progress `i * 100 / n_buckets` stays below 100 percent no
threshold beyond 51.2 percent is ever printed.  Thresholds here are in tenths of a
percent: the value `2 ^ j` stands for the printed `0.1 * 2^j` percent. -/
theorem C7_mapreduce_ticks_amended (n_buckets n_procs n_threads proc_id : Nat)
    (verbose : Bool) :
    (¬ (verbose = true ∧ proc_id = 0) →
      mapreduce_ticks n_buckets n_procs n_threads proc_id verbose = []) ∧
    ∀ x ∈ mapreduce_ticks n_buckets n_procs n_threads proc_id verbose,
      ∃ m, m ≤ 9 ∧ x = 2 ^ m := by
  constructor
  · intro h
    unfold mapreduce_ticks
    rw [tick_fold_const n_buckets n_procs n_threads proc_id verbose h]
  · intro x hx
    unfold mapreduce_ticks at hx
    refine tick_fold_pow n_buckets n_procs n_threads proc_id verbose _ [] 1
      ?_ ?_ ?_ x hx
    · intro j hj
      exact of_decide_eq_true (List.mem_filter.mp hj).2
    · intro y hy
      simp at hy
    · exact ⟨0, rfl⟩

/-- C7 (counterexample): with 11 buckets on a single process and a single thread,
the first printed progress threshold is 0.1 percent (1 tenth of a percent), which
is none of 10, 20, 40 or 80 percent (100, 200, 400, 800 tenths): the doubling
thresholds do not start at 10 percent. -/
theorem C7_mapreduce_ticks_counterexample :
    1 ∈ mapreduce_ticks 11 1 1 0 true ∧
    (1 : Nat) ≠ 100 ∧ (1 : Nat) ≠ 200 ∧ (1 : Nat) ≠ 400 ∧ (1 : Nat) ≠ 800 := by
  exact ⟨by decide, by decide, by decide, by decide, by decide⟩

theorem C7_mapreduce_ticks_amended_witness :
    mapreduce_ticks 11 1 1 1 true = [] ∧ ∃ m, m ≤ 9 ∧ (128 : Nat) = 2 ^ m :=
  ⟨(C7_mapreduce_ticks_amended 11 1 1 1 true).1 (by decide),
   (C7_mapreduce_ticks_amended 11 1 1 0 true).2 128 (by decide)⟩

theorem get_node_handler_preserves (default_value : V) (key : K) :
    ∀ b : List (K × V),
      (hash_node_apply_recursive key (get_node_handler default_value) b).1 = b := by
  intro b
  induction b with
  | nil => rfl
  | cons e t ih =>
    obtain ⟨k, v⟩ := e
    by_cases hk : k = key
    · simp [hash_node_apply_recursive, hk, get_node_handler]
    · simp [hash_node_apply_recursive, hk, ih]

/-- C8: after `clear` the key count is zero and every lookup returns the default
value; after `clear_and_shrink` additionally the bucket array is reset to the
smallest prime of the table (`n_buckets = 11 = N_INITIAL_BUCKETS`).  In this
translation unit the lock segments stripe one shared bucket array, which is the
array being reset. -/
theorem C8_clear_semantics (S : ConcurrentMapState K V) (key : K) (hash_value : Nat)
    (default_value : V) :
    (clear S).n_keys = 0 ∧
    (get_with_hash (clear S) key hash_value default_value).1 = default_value ∧
    (clear_and_shrink S).n_keys = 0 ∧
    (get_with_hash (clear_and_shrink S) key hash_value default_value).1 =
      default_value ∧
    (clear_and_shrink S).n_buckets = N_INITIAL_BUCKETS := by
  refine ⟨rfl, ?_, rfl, ?_, rfl⟩
  · show (hash_node_apply_recursive key (get_node_handler default_value)
        ((clear S).buckets.getD (hash_value % (clear S).n_buckets) [])).2 =
      default_value
    rw [show (clear S).buckets = List.replicate S.n_buckets [] from rfl]
    rw [getD_replicate_self]
    rfl
  · show (hash_node_apply_recursive key (get_node_handler default_value)
        ((clear_and_shrink S).buckets.getD
          (hash_value % (clear_and_shrink S).n_buckets) [])).2 = default_value
    rw [show (clear_and_shrink S).buckets = List.replicate N_INITIAL_BUCKETS []
      from rfl]
    rw [getD_replicate_self]
    rfl

/-- C9: `get` returns the stored value when the key is present in the probed bucket
(`hash_value % n_buckets` — the bucket the key lives in whenever the supplied hash
is consistent with the key, as the source requires), returns the default value when
the key is absent from the entire map, and leaves the map state unchanged in every
case. -/
theorem C9_get_with_hash_semantics (S : ConcurrentMapState K V) (key : K)
    (hash_value : Nat) (default_value : V) :
    (get_with_hash S key hash_value default_value).2 = S ∧
    (∀ v, (key, v) ∈ S.buckets.getD (hash_value % S.n_buckets) [] →
      ((S.buckets.getD (hash_value % S.n_buckets) []).map Prod.fst).Nodup →
      (get_with_hash S key hash_value default_value).1 = v) ∧
    (key ∉ (entries S).map Prod.fst →
      (get_with_hash S key hash_value default_value).1 = default_value) := by
  refine ⟨?_, ?_, ?_⟩
  · show ({ S with buckets := (S.buckets.set (hash_value % S.n_buckets)
        (hash_node_apply_recursive key (get_node_handler default_value)
          (S.buckets.getD (hash_value % S.n_buckets) [])).1) } :
      ConcurrentMapState K V) = S
    rw [get_node_handler_preserves, set_getD_self]
  · intro v hmem hnd
    obtain ⟨b1, b2, hb, hb1⟩ := mem_nodup_split key v _ hmem hnd
    show (hash_node_apply_recursive key (get_node_handler default_value)
        (S.buckets.getD (hash_value % S.n_buckets) [])).2 = v
    rw [hb, hash_node_apply_recursive_mem key v (get_node_handler default_value)
      b1 b2 hb1]
    rfl
  · intro hmem
    have hbucket : key ∉ (S.buckets.getD (hash_value % S.n_buckets) []).map
        Prod.fst := by
      intro h
      exact hmem (((getD_sublist_flatten S.buckets
        (hash_value % S.n_buckets)).map Prod.fst).subset h)
    show (hash_node_apply_recursive key (get_node_handler default_value)
        (S.buckets.getD (hash_value % S.n_buckets) [])).2 = default_value
    rw [hash_node_apply_recursive_not_mem key (get_node_handler default_value)
      _ hbucket]
    rfl

theorem C9_get_with_hash_semantics_witness :
    (get_with_hash example_map_one 5 5 0).2 = example_map_one ∧
    (get_with_hash example_map_one 5 5 0).1 = 42 ∧
    (get_with_hash example_map_one 9 9 0).1 = 0 :=
  ⟨(C9_get_with_hash_semantics example_map_one 5 5 0).1,
   (C9_get_with_hash_semantics example_map_one 5 5 0).2.1 42 (by decide) (by decide),
   (C9_get_with_hash_semantics example_map_one 9 9 0).2.2 (by decide)⟩

/-- C10: `unset` on a key absent from the map is a no-op: the state (its `n_keys`,
`n_buckets` and every stored pair) is returned unchanged. -/
theorem C10_unset_absent_noop (S : ConcurrentMapState K V) (key : K)
    (hash_value : Nat) :
    key ∉ (entries S).map Prod.fst →
    unset_with_hash S key hash_value = S := by
  intro hmem
  have hbucket : key ∉ (S.buckets.getD (hash_value % S.n_buckets) []).map
      Prod.fst := by
    intro h
    exact hmem (((getD_sublist_flatten S.buckets
      (hash_value % S.n_buckets)).map Prod.fst).subset h)
  show ({ { S with buckets := (S.buckets.set (hash_value % S.n_buckets)
      (hash_node_apply_recursive key unset_node_handler
        (S.buckets.getD (hash_value % S.n_buckets) [])).1) } with
    n_keys := ((hash_node_apply_recursive key unset_node_handler
        (S.buckets.getD (hash_value % S.n_buckets) [])).2 S.n_keys) } :
      ConcurrentMapState K V) = S
  rw [hash_node_apply_recursive_not_mem key unset_node_handler _ hbucket]
  show ({ { S with buckets := (S.buckets.set (hash_value % S.n_buckets)
      (S.buckets.getD (hash_value % S.n_buckets) [] ++ [])) } with
    n_keys := S.n_keys } : ConcurrentMapState K V) = S
  rw [List.append_nil, set_getD_self]

theorem C10_unset_absent_noop_witness :
    unset_with_hash example_map_one 9 9 = example_map_one :=
  C10_unset_absent_noop example_map_one 9 9 (by decide)

theorem chain_lookup_bare_set_self (key : K) (hash_value : Nat) (value : V)
    (reducer : V → V → V) :
    ∀ l : List (K × Nat × V),
      chain_lookup key (bare_map_set key hash_value value reducer l) =
        some ((chain_lookup key l).elim value (fun w => reducer w value)) := by
  intro l
  induction l with
  | nil => simp [bare_map_set, chain_lookup]
  | cons e t ih =>
    obtain ⟨k, h, w⟩ := e
    by_cases hk : k = key
    · simp [bare_map_set, chain_lookup, hk]
    · simp [bare_map_set, chain_lookup, hk, ih]

theorem chain_lookup_bare_set_other (key key2 : K) (hash_value : Nat) (value : V)
    (reducer : V → V → V) (hne : key ≠ key2) :
    ∀ l : List (K × Nat × V),
      chain_lookup key2 (bare_map_set key hash_value value reducer l) =
        chain_lookup key2 l := by
  intro l
  induction l with
  | nil => simp [bare_map_set, chain_lookup, hne]
  | cons e t ih =>
    obtain ⟨k, h, w⟩ := e
    by_cases hk : k = key
    · subst hk
      simp [bare_map_set, chain_lookup, hne]
    · by_cases hk2 : k = key2
      · subst hk2
        simp [bare_map_set, chain_lookup, hk, chain_lookup]
      · simp [bare_map_set, chain_lookup, hk, hk2, ih]

theorem chain_lookup_append_left_free (key : K) :
    ∀ (l1 l2 : List (K × Nat × V)), (∀ e ∈ l1, e.1 ≠ key) →
      chain_lookup key (l1 ++ l2) = chain_lookup key l2 := by
  intro l1
  induction l1 with
  | nil => intro l2 _; rfl
  | cons e t ih =>
    intro l2 hfree
    obtain ⟨k, h, w⟩ := e
    have hk : k ≠ key := hfree _ (List.mem_cons_self _ _)
    rw [List.cons_append]
    simp only [chain_lookup, if_neg hk]
    exact ih l2 (fun x hx => hfree x (List.mem_cons_of_mem _ hx))

theorem chain_lookup_none_of_free (key : K) :
    ∀ l : List (K × Nat × V), (∀ e ∈ l, e.1 ≠ key) → chain_lookup key l = none := by
  intro l
  induction l with
  | nil => intro _; rfl
  | cons e t ih =>
    intro hfree
    obtain ⟨k, h, w⟩ := e
    have hk : k ≠ key := hfree _ (List.mem_cons_self _ _)
    simp only [chain_lookup, if_neg hk]
    exact ih (fun x hx => hfree x (List.mem_cons_of_mem _ hx))

theorem free_of_countP_zero (key : K) (l : List (K × Nat × V))
    (h : l.countP (fun e => decide (e.1 = key)) = 0) :
    ∀ e ∈ l, e.1 ≠ key := by
  intro e he heq
  exact (List.countP_eq_zero.mp h) e he (by simp [heq])

theorem countP_eq_one_split {α : Type} (p : α → Bool) :
    ∀ l : List α, l.countP p = 1 →
      ∃ l1 a l2, l = l1 ++ a :: l2 ∧ p a = true ∧
        l1.countP p = 0 ∧ l2.countP p = 0 := by
  intro l
  induction l with
  | nil => intro h; simp [List.countP_nil] at h
  | cons a t ih =>
    intro h
    by_cases hpa : p a = true
    · have hct : t.countP p = 0 := by
        rw [List.countP_cons, if_pos hpa] at h
        omega
      exact ⟨[], a, t, rfl, hpa, rfl, hct⟩
    · have hct : t.countP p = 1 := by
        rw [List.countP_cons, if_neg hpa] at h
        omega
      obtain ⟨l1, b, l2, hl, hpb, h1, h2⟩ := ih hct
      refine ⟨a :: l1, b, l2, by rw [hl, List.cons_append], hpb, ?_, h2⟩
      rw [List.countP_cons]
      simp [hpa, h1]

theorem set_oob {α : Type} (a : α) :
    ∀ (l : List α) (i : Nat), l.length ≤ i → l.set i a = l := by
  intro l
  induction l with
  | nil => intro i _; rfl
  | cons x t ih =>
    intro i hi
    cases i with
    | zero => simp at hi
    | succ j =>
      show x :: t.set j a = x :: t
      exact congrArg (x :: ·) (ih j (by simpa using hi))

theorem sync_step_lookup_other (key : K) (hk n : Nat) (reducer : V → V → V)
    (segs : List (List (K × Nat × V))) (e : K × Nat × V) (hne : e.1 ≠ key) :
    chain_lookup key ((sync_handler_step n reducer segs e).getD (hk % n) []) =
      chain_lookup key (segs.getD (hk % n) []) := by
  unfold sync_handler_step
  by_cases hij : e.2.1 % n = hk % n
  · rw [hij]
    by_cases hlen : hk % n < segs.length
    · rw [getD_set_self _ _ _ _ hlen]
      exact chain_lookup_bare_set_other e.1 key _ _ reducer hne _
    · rw [set_oob _ _ _ (by omega)]
  · rw [getD_set_ne _ _ _ _ _ hij]

theorem sync_step_lookup_self (key : K) (hk n : Nat) (reducer : V → V → V)
    (segs : List (List (K × Nat × V))) (e : K × Nat × V) (heq : e.1 = key)
    (hhash : e.2.1 = hk) (hlen : hk % n < segs.length) :
    chain_lookup key ((sync_handler_step n reducer segs e).getD (hk % n) []) =
      some ((chain_lookup key (segs.getD (hk % n) [])).elim e.2.2
        (fun w => reducer w e.2.2)) := by
  unfold sync_handler_step
  rw [hhash, getD_set_self _ _ _ _ hlen, heq]
  exact chain_lookup_bare_set_self key _ e.2.2 reducer _

theorem sync_fold_lookup_free (key : K) (hk n : Nat) (reducer : V → V → V) :
    ∀ (es : List (K × Nat × V)) (segs : List (List (K × Nat × V))),
      (∀ e ∈ es, e.1 ≠ key) →
      chain_lookup key
          ((es.foldl (sync_handler_step n reducer) segs).getD (hk % n) []) =
        chain_lookup key (segs.getD (hk % n) []) := by
  intro es
  induction es with
  | nil => intro segs _; rfl
  | cons e t ih =>
    intro segs hfree
    rw [List.foldl_cons]
    rw [ih _ (fun x hx => hfree x (List.mem_cons_of_mem _ hx))]
    exact sync_step_lookup_other key hk n reducer segs e
      (hfree e (List.mem_cons_self _ _))

theorem sync_fold_length (n : Nat) (reducer : V → V → V) :
    ∀ (es : List (K × Nat × V)) (segs : List (List (K × Nat × V))),
      (es.foldl (sync_handler_step n reducer) segs).length = segs.length := by
  intro es
  induction es with
  | nil => intro segs; rfl
  | cons e t ih =>
    intro segs
    rw [List.foldl_cons, ih]
    simp [sync_handler_step]

/-- C4: after `sync(reducer)` every thread staging cache is empty, and the
committed segments hold, for every key, exactly the reducer-combination of its
pre-sync committed value and its staged value.  Stated for keys staged at most
once across the caches — the situation the claim's singular "its staged value"
describes — with staged entries carrying the hash of their key, as `async_set`
stores them.  `bare_map.h` is absent from `src`, so the bare-map `set`, lookup and
iteration are modelled from the spec. -/
theorem C4_sync_post (S : BareConcurrentMapState K V) (reducer : V → V → V)
    (hash_of : K → Nat) (key : K)
    (hpos : 0 < S.n_segments)
    (hlen : S.segments.length = S.n_segments)
    (hhash : ∀ cache ∈ S.thread_caches, ∀ e ∈ cache, e.1 = key →
      e.2.1 = hash_of key)
    (hcount : S.thread_caches.flatten.countP (fun e => decide (e.1 = key)) ≤ 1) :
    (∀ cache ∈ (sync S reducer).thread_caches, cache = []) ∧
    seg_lookup (sync S reducer) key (hash_of key) =
      combine_opt reducer (seg_lookup S key (hash_of key))
        (staged_lookup S key) := by
  constructor
  · intro cache hcache
    rcases List.mem_map.mp hcache with ⟨c, _, hc⟩
    exact hc.symm
  · have hsegs : (sync S reducer).segments =
        (S.thread_caches.flatten).foldl (sync_handler_step S.n_segments reducer)
          S.segments := by
      show S.thread_caches.foldl
          (fun segs cache =>
            cache.foldl (sync_handler_step S.n_segments reducer) segs)
          S.segments = _
      rw [List.foldl_flatten]
    show chain_lookup key (((sync S reducer).segments).getD
        (hash_of key % S.n_segments) []) = _
    rw [hsegs]
    rcases Nat.le_one_iff_eq_zero_or_eq_one.mp hcount with h0 | h1
    · have hfree := free_of_countP_zero key _ h0
      rw [sync_fold_lookup_free key (hash_of key) S.n_segments reducer _ _ hfree]
      have hstaged : staged_lookup S key = none :=
        chain_lookup_none_of_free key _ hfree
      rw [hstaged]
      show seg_lookup S key (hash_of key) =
        combine_opt reducer (seg_lookup S key (hash_of key)) none
      cases hx : seg_lookup S key (hash_of key) <;> simp [combine_opt]
    · obtain ⟨l1, a, l2, hsplit, hpa, hc1, hc2⟩ :=
        countP_eq_one_split (fun e : K × Nat × V => decide (e.1 = key)) _ h1
      have ha : a.1 = key := of_decide_eq_true hpa
      have hamem : a ∈ S.thread_caches.flatten := by
        rw [hsplit]
        exact List.mem_append.mpr (Or.inr (List.mem_cons_self _ _))
      have hahash : a.2.1 = hash_of key := by
        rcases List.mem_flatten.mp hamem with ⟨cache, hcmem, hacache⟩
        exact hhash cache hcmem a hacache ha
      have hfree1 := free_of_countP_zero key _ hc1
      have hfree2 := free_of_countP_zero key _ hc2
      rw [hsplit, List.foldl_append, List.foldl_cons]
      rw [sync_fold_lookup_free key (hash_of key) S.n_segments reducer _ _ hfree2]
      have hlen1 : hash_of key % S.n_segments <
          (l1.foldl (sync_handler_step S.n_segments reducer) S.segments).length := by
        rw [sync_fold_length, hlen]
        exact Nat.mod_lt _ hpos
      rw [sync_step_lookup_self key (hash_of key) S.n_segments reducer _ a ha
        hahash hlen1]
      rw [sync_fold_lookup_free key (hash_of key) S.n_segments reducer _ _ hfree1]
      have hstaged : staged_lookup S key = some a.2.2 := by
        show chain_lookup key S.thread_caches.flatten = some a.2.2
        rw [hsplit, chain_lookup_append_left_free key l1 _ hfree1]
        simp [chain_lookup, ha]
      rw [hstaged]
      show some ((seg_lookup S key (hash_of key)).elim a.2.2
          (fun w => reducer w a.2.2)) =
        combine_opt reducer (seg_lookup S key (hash_of key)) (some a.2.2)
      cases hx : seg_lookup S key (hash_of key) <;> simp [combine_opt]

theorem C4_sync_post_witness :
    (∀ cache ∈ (sync example_bare_map Nat.add).thread_caches, cache = []) ∧
    seg_lookup (sync example_bare_map Nat.add) 0 0 =
      combine_opt Nat.add (seg_lookup example_bare_map 0 0)
        (staged_lookup example_bare_map 0) :=
  C4_sync_post example_bare_map Nat.add (fun _ => 0) 0 (by decide) rfl
    (by decide) (by decide)

/-- C5: `async_set` targets segment `hash mod n_segments`; with the try-lock
acquired it performs the bare-map `set` on that segment with hash
`hash div n_segments`, touching no other segment and no cache; with the try-lock
unavailable it instead performs the bare-map `set` on the calling thread's staging
cache keyed by the full hash, touching no segment (it never blocks: both outcomes
are total).  `bare_map.h` is absent from `src`, so the bare-map `set` is modelled
from the spec. -/
theorem C5_async_set_routing (S : BareConcurrentMapState K V) (thread_id : Nat)
    (key : K) (hash_value : Nat) (value : V) (reducer : V → V → V)
    (hlen : S.segments.length = S.n_segments) (hpos : 0 < S.n_segments)
    (htid : thread_id < S.thread_caches.length) :
    ((async_set S thread_id key hash_value value reducer true).segments.getD
        (hash_value % S.n_segments) [] =
      bare_map_set key (hash_value / S.n_segments) value reducer
        (S.segments.getD (hash_value % S.n_segments) []) ∧
     (∀ j, j ≠ hash_value % S.n_segments →
       (async_set S thread_id key hash_value value reducer true).segments.getD
         j [] = S.segments.getD j []) ∧
     (async_set S thread_id key hash_value value reducer true).thread_caches =
       S.thread_caches) ∧
    ((async_set S thread_id key hash_value value reducer false).thread_caches.getD
        thread_id [] =
      bare_map_set key hash_value value reducer
        (S.thread_caches.getD thread_id []) ∧
     (∀ j, j ≠ thread_id →
       (async_set S thread_id key hash_value value reducer false).thread_caches.getD
         j [] = S.thread_caches.getD j []) ∧
     (async_set S thread_id key hash_value value reducer false).segments =
       S.segments) := by
  refine ⟨⟨?_, ?_, rfl⟩, ?_, ?_, rfl⟩
  · show (S.segments.set (hash_value % S.n_segments)
        (bare_map_set key (hash_value / S.n_segments) value reducer
          (S.segments.getD (hash_value % S.n_segments) []))).getD
      (hash_value % S.n_segments) [] = _
    exact getD_set_self _ _ _ _ (by rw [hlen]; exact Nat.mod_lt _ hpos)
  · intro j hj
    show (S.segments.set (hash_value % S.n_segments)
        (bare_map_set key (hash_value / S.n_segments) value reducer
          (S.segments.getD (hash_value % S.n_segments) []))).getD j [] =
      S.segments.getD j []
    exact getD_set_ne _ _ _ _ _ (Ne.symm hj)
  · show (S.thread_caches.set thread_id
        (bare_map_set key hash_value value reducer
          (S.thread_caches.getD thread_id []))).getD thread_id [] = _
    exact getD_set_self _ _ _ _ htid
  · intro j hj
    show (S.thread_caches.set thread_id
        (bare_map_set key hash_value value reducer
          (S.thread_caches.getD thread_id []))).getD j [] =
      S.thread_caches.getD j []
    exact getD_set_ne _ _ _ _ _ (Ne.symm hj)

theorem C5_async_set_routing_witness :
    (async_set example_bare_map 0 1 3 9 overwrite true).segments.getD
        (3 % example_bare_map.n_segments) [] =
      bare_map_set 1 (3 / example_bare_map.n_segments) 9 overwrite
        (example_bare_map.segments.getD (3 % example_bare_map.n_segments) []) ∧
    (async_set example_bare_map 0 1 3 9 overwrite false).segments =
      example_bare_map.segments :=
  ⟨((C5_async_set_routing example_bare_map 0 1 3 9 overwrite rfl (by decide)
      (by decide)).1).1,
   ((C5_async_set_routing example_bare_map 0 1 3 9 overwrite rfl (by decide)
      (by decide)).2).2.2⟩

theorem C3_set_with_hash_semantics_witness :
    ((hash_node_apply_recursive 5 (set_node_handler 5 7 overwrite)
        (example_map_one.buckets.getD (5 % example_map_one.n_buckets) [])).1 =
      [] ++ (5, overwrite 42 7) :: [] ∧
     (set_with_hash example_map_one 5 5 7 overwrite).n_keys = example_map_one.n_keys) ∧
    ((hash_node_apply_recursive 9 (set_node_handler 9 7 overwrite)
        (example_map_one.buckets.getD (9 % example_map_one.n_buckets) [])).1 =
      example_map_one.buckets.getD (9 % example_map_one.n_buckets) [] ++ [(9, 7)] ∧
     (set_with_hash example_map_one 9 9 7 overwrite).n_keys =
       example_map_one.n_keys + 1) :=
  ⟨(C3_set_with_hash_semantics example_map_one 5 5 7 overwrite).1 [] 42 []
      (by decide) (by decide),
   (C3_set_with_hash_semantics example_map_one 9 9 7 overwrite).2 (by decide)⟩

end Hpmr
